import Mathlib

/-!
Shallow embedding of the `polybar` DNA-style progress bar.

The repository contains two near-duplicate implementations of the same
package: the canonical one at `polybar/polybar.go` (the one imported by
`cmd/polybar/main.go`), embedded below in the root namespace, and a
variant at the repository root `polybar.go`, embedded in namespace `Root`.
Go strings are modelled at the rune level as `List Char` (all inputs of
interest are ASCII, where byte and rune indexing coincide); Go `int`
fields are modelled as unbounded `Int` with Go's truncated division
(`Int.tdiv`).  Operations that panic in Go (negative slice bounds,
`strings.Repeat` with a negative count) are modelled as `Option`, with
`none` standing for the panic.
-/

namespace Polybar

/-- The apostrophe character used in the strand-direction labels. -/
def apos : Char := Char.ofNat 39

/-- Zipper glyph `┬` (constant `zipperChar`). -/
def zipperChar : Char := Char.ofNat 0x252C

/-- Primer glyph `┴` (constant `baseChar`). -/
def baseChar : Char := Char.ofNat 0x2534

/-- Constant `arrowText = "===>"`. -/
def arrowText : List Char := ['=', '=', '=', '>']

/-- Constant `defaultSequence`, the built-in 21-character default. -/
def defaultSequence : List Char :=
  ['G', 'C', 'C', 'A', 'G', 'T', 'T', 'T', 'T', 'G', 'G', 'G',
   'C', 'T', 'G', 'G', 'T', 'T', 'G', 'G', 'C']

/-- Go `unicode.IsSpace` restricted to the characters it recognises in
Latin-1: space, tab, newline, vertical tab, form feed, carriage return,
NEL and NBSP. -/
def goIsSpace (c : Char) : Bool :=
  c = ' ' || c = Char.ofNat 9 || c = Char.ofNat 10 || c = Char.ofNat 11 ||
  c = Char.ofNat 12 || c = Char.ofNat 13 || c = Char.ofNat 0x85 ||
  c = Char.ofNat 0xA0

/-- Go `strings.TrimSpace`: drop leading and trailing whitespace. -/
def trimSpace (s : List Char) : List Char :=
  ((s.dropWhile goIsSpace).reverse.dropWhile goIsSpace).reverse

/-- Go `strings.ToUpper` at the rune level (ASCII case mapping suffices
for the sequences this program handles). -/
def goToUpper (s : List Char) : List Char :=
  s.map Char.toUpper

/-- The per-character complement mapping, the body of the `switch` in
`generateComplement`: A↔T, G↔C, 5↔3, dash→dash, anything else→N. -/
def complementChar (base : Char) : Char :=
  if base = '5' then '3'
  else if base = '3' then '5'
  else if base = 'A' then 'T'
  else if base = 'T' then 'A'
  else if base = 'G' then 'C'
  else if base = 'C' then 'G'
  else if base = '-' then '-'
  else 'N'

/-- `generateComplement`: complement every character of the sequence.
The Go loop `for i, base := range sequence` visits each rune in order
and writes its complement at the corresponding position; at the rune
level this is a map. -/
def generateComplement (sequence : List Char) : List Char :=
  sequence.map complementChar

/-- `padOrTruncate`: return `s` padded with trailing dashes or truncated
so its length equals `length`.  `New` only calls it with the (always
non-negative) byte length of the header, so the target is a `Nat`. -/
def padOrTruncate (s : List Char) (length : Nat) : List Char :=
  if s.length = length then s
  else if s.length < length then s ++ List.replicate (length - s.length) '-'
  else s.take length

/-- The `ProgressBar` struct.  All Go `int` fields are `Int`; the three
string fields are rune lists. -/
structure ProgressBar where
  width : Int
  headerLine : List Char
  topStrand : List Char
  complement : List Char
  completed : Int
  total : Int
deriving DecidableEq, Repr

/-- `New` from `polybar/polybar.go`: substitute the default sequence for
an empty / all-whitespace input, uppercase it, complement it, then pick
the width from the header (padding or truncating both strands) when the
header is non-empty, else from the top strand. -/
def New (topStrand header : List Char) : ProgressBar :=
  let topStrand := if trimSpace topStrand = [] then defaultSequence else topStrand
  let top := goToUpper topStrand
  let comp := generateComplement top
  if header ≠ [] then
    { width := (header.length : Int)
      headerLine := header
      topStrand := padOrTruncate top header.length
      complement := padOrTruncate comp header.length
      completed := 0
      total := 0 }
  else
    { width := (top.length : Int)
      headerLine := header
      topStrand := top
      complement := comp
      completed := 0
      total := 0 }

/-- One event written to the diagnostic stream: a cursor-up escape
sequence, or one printed line (`Fprintln`). -/
inductive OutEvent where
  | cursorUp : OutEvent
  | line : List Char → OutEvent
deriving DecidableEq, Repr

/-- Go `strings.Repeat c n`: panics (`none`) for a negative count. -/
def goRepeat (c : Char) (n : Int) : Option (List Char) :=
  if 0 ≤ n then some (List.replicate n.toNat c) else none

/-- Go slice `s[:n]`: panics (`none`) unless `0 ≤ n ≤ len s`. -/
def goSlice (s : List Char) (n : Int) : Option (List Char) :=
  if 0 ≤ n ∧ n ≤ (s.length : Int) then some (s.take n.toNat) else none

/-- The fill-position computation of `render`:
`pos := pb.completed * pb.width / pb.total` (Go division truncates
toward zero, `Int.tdiv`) followed by the upper clamp
`if pos > pb.width { pos = pb.width }`. -/
def fillPos (pb : ProgressBar) : Int :=
  let pos := Int.tdiv (pb.completed * pb.width) pb.total
  if pos > pb.width then pb.width else pos

/-- The label `"3'"` on the canonical zipper line. -/
def label3 : List Char := ['3', apos]

/-- The label `"5'"` on the canonical primer line. -/
def label5 : List Char := ['5', apos]

/-- The `"--"` lead-in on the strand lines. -/
def dashLead : List Char := ['-', '-']

/-- Decimal text of an integer (`%d`). -/
def intText (i : Int) : List Char :=
  if i < 0 then '-' :: Nat.toDigits 10 i.natAbs else Nat.toDigits 10 i.natAbs

/-- The percentage line `fmt.Sprintf("%.1f%% (%d/%d)", percent, c, t)`.
Go computes `percent` in `float64`; the one-decimal text is modelled at
the rational level by truncating `completed*1000/total` to tenths (the
claims never inspect these digits, only that the line is printed and is
non-blank). -/
def linePercentText (completed total : Int) : List Char :=
  let tenths := Int.tdiv (completed * 1000) total
  intText (Int.tdiv tenths 10) ++ '.' :: Nat.toDigits 10 (Int.tmod tenths 10).natAbs ++
    '%' :: ' ' :: '(' :: intText completed ++ '/' :: intText total ++ [')']

/-- Steps 1–5 of `render` in `polybar/polybar.go`: the five lines of a
frame, in print order, or `none` if one of the slice / repeat operations
panics.  The `Option.bind` chain follows the Go statement order, so a
panic in an earlier line prevents the later ones (and everything after
them). -/
def renderLines (pb : ProgressBar) : Option (List (List Char)) :=
  (goRepeat zipperChar pb.width).bind (fun zrep =>
  (if fillPos pb ≤ (pb.topStrand.length : Int) then
      (goSlice pb.topStrand (fillPos pb)).map (fun r => dashLead ++ r)
    else
      some (dashLead ++ pb.topStrand)).bind (fun lineTop =>
  (if fillPos pb ≤ (pb.complement.length : Int) then
      (goSlice pb.complement (fillPos pb)).map (fun r => dashLead ++ r)
    else
      some (dashLead ++ pb.complement)).bind (fun lineComplement =>
  (if fillPos pb < pb.width then goRepeat baseChar (fillPos pb)
    else goRepeat baseChar pb.width).bind (fun primerRep =>
  some [label3 ++ zrep, lineTop, lineComplement,
        label5 ++ primerRep ++ arrowText,
        linePercentText pb.completed pb.total]))))

/-- `render` from `polybar/polybar.go` as the list of events written to
stderr: `some []` when `total == 0` (the early-return no-op), `none`
when a line computation panics, otherwise the cursor-up sequences
(5, plus 1 with a header, and only when `completed > 0`) followed by the
printed lines (the header line first when `headerLine != ""`). -/
def renderOutput (pb : ProgressBar) : Option (List OutEvent) :=
  if pb.total = 0 then some []
  else
    match renderLines pb with
    | none => none
    | some lines =>
      let ups : Nat :=
        if pb.completed > 0 then 5 + (if pb.headerLine ≠ [] then 1 else 0) else 0
      let printed := if pb.headerLine ≠ [] then pb.headerLine :: lines else lines
      some (List.replicate ups OutEvent.cursorUp ++ printed.map OutEvent.line)

/-- `Start`: set `total`, reset `completed` to 0, render.  Returns the
new state and the render output. -/
def Start (pb : ProgressBar) (total : Int) : ProgressBar × Option (List OutEvent) :=
  let pb := { pb with total := total, completed := 0 }
  (pb, renderOutput pb)

/-- `Update`: increment `completed` by one, render. -/
def Update (pb : ProgressBar) : ProgressBar × Option (List OutEvent) :=
  let pb := { pb with completed := pb.completed + 1 }
  (pb, renderOutput pb)

/-- `SetProgress`: set `completed`, render. -/
def SetProgress (pb : ProgressBar) (completed : Int) : ProgressBar × Option (List OutEvent) :=
  let pb := { pb with completed := completed }
  (pb, renderOutput pb)

/-- `Finish`: set `completed = total`, render, then `Fprintln(os.Stderr)`
— one blank line, emitted only if the render did not panic (a Go panic
would propagate before the `Fprintln`). -/
def Finish (pb : ProgressBar) : ProgressBar × Option (List OutEvent) :=
  let pb := { pb with completed := pb.total }
  (pb, (renderOutput pb).map (fun evs => evs ++ [OutEvent.line []]))

namespace Root

/-- `New` from the root-level `polybar.go` variant.  It differs from the
canonical `New` only in the empty-header branch, where it sets
`headerLine` to the (uppercased) top strand instead of leaving it
empty. -/
def New (topStrand header : List Char) : ProgressBar :=
  let topStrand := if trimSpace topStrand = [] then defaultSequence else topStrand
  let top := goToUpper topStrand
  let comp := generateComplement top
  if header ≠ [] then
    { width := (header.length : Int)
      headerLine := header
      topStrand := padOrTruncate top header.length
      complement := padOrTruncate comp header.length
      completed := 0
      total := 0 }
  else
    { width := (top.length : Int)
      headerLine := top
      topStrand := top
      complement := comp
      completed := 0
      total := 0 }

/-- The five lines of the root variant's `render`: identical to the
canonical ones except that the zipper carries the `"5'"` label and the
primer the `"3'"` label. -/
def renderLines (pb : ProgressBar) : Option (List (List Char)) :=
  (goRepeat zipperChar pb.width).bind (fun zrep =>
  (if fillPos pb ≤ (pb.topStrand.length : Int) then
      (goSlice pb.topStrand (fillPos pb)).map (fun r => dashLead ++ r)
    else
      some (dashLead ++ pb.topStrand)).bind (fun lineTop =>
  (if fillPos pb ≤ (pb.complement.length : Int) then
      (goSlice pb.complement (fillPos pb)).map (fun r => dashLead ++ r)
    else
      some (dashLead ++ pb.complement)).bind (fun lineComplement =>
  (if fillPos pb < pb.width then goRepeat baseChar (fillPos pb)
    else goRepeat baseChar pb.width).bind (fun primerRep =>
  some [label5 ++ zrep, lineTop, lineComplement,
        label3 ++ primerRep ++ arrowText,
        linePercentText pb.completed pb.total]))))

/-- `render` of the root variant: never prints `headerLine`, and moves
the cursor up exactly 5 lines whenever `completed > 0`. -/
def renderOutput (pb : ProgressBar) : Option (List OutEvent) :=
  if pb.total = 0 then some []
  else
    match renderLines pb with
    | none => none
    | some lines =>
      let ups : Nat := if pb.completed > 0 then 5 else 0
      some (List.replicate ups OutEvent.cursorUp ++ lines.map OutEvent.line)

end Root

/-! ### Derived definitions used in the statements below -/

/-- The effective sequence `New` works with after the empty-input
substitution. -/
def effectiveSeq (s : List Char) : List Char :=
  if trimSpace s = [] then defaultSequence else s

/-- The five frame lines of the canonical `render` in closed form (valid
for a bar whose strands match its non-negative width and whose fill
position is non-negative). -/
def frameLines (pb : ProgressBar) : List (List Char) :=
  [label3 ++ List.replicate pb.width.toNat zipperChar,
   dashLead ++ pb.topStrand.take (fillPos pb).toNat,
   dashLead ++ pb.complement.take (fillPos pb).toNat,
   label5 ++ List.replicate (fillPos pb).toNat baseChar ++ arrowText,
   linePercentText pb.completed pb.total]

/-- Whether an output event is a printed line (as opposed to a cursor-up
escape sequence). -/
def isLine : OutEvent → Bool
  | OutEvent.line _ => true
  | OutEvent.cursorUp => false

/-- A concrete bar with a header, mid-progress (used as a witness
input). -/
def pbW : ProgressBar :=
  { New ['s', 'e', 'q'] ['H', 'D', 'R'] with completed := 1, total := 3 }

/-- A concrete header-less bar, mid-progress (used as a witness
input). -/
def pbNoH : ProgressBar :=
  { New ['A', 'T', 'C', 'G'] [] with completed := 1, total := 4 }

/-! ### Helper lemmas shared by the theorems below -/

lemma length_goToUpper (s : List Char) : (goToUpper s).length = s.length :=
  List.length_map _ _

lemma length_generateComplement (s : List Char) :
    (generateComplement s).length = s.length :=
  List.length_map _ _

lemma length_padOrTruncate (s : List Char) (n : Nat) :
    (padOrTruncate s n).length = n := by
  unfold padOrTruncate
  by_cases h1 : s.length = n
  · simp [h1]
  · by_cases h2 : s.length < n
    · simp [h1, h2, Nat.add_sub_cancel' (Nat.le_of_lt h2)]
    · have h3 : n ≤ s.length := Nat.le_of_not_lt h2
      simp [h1, h2, Nat.min_eq_left h3]

lemma length_pos_of_trimSpace_ne_nil (s : List Char) (h : trimSpace s ≠ []) :
    0 < s.length := by
  cases s with
  | nil => exact absurd rfl h
  | cons a t => simp

lemma New_layout (s h : List Char) :
    ((New s h).topStrand.length : Int) = (New s h).width ∧
    ((New s h).complement.length : Int) = (New s h).width ∧
    (New s h).width =
      (if h = [] then ((goToUpper (effectiveSeq s)).length : Int)
       else (h.length : Int)) := by
  unfold New effectiveSeq
  by_cases hh : h = []
  · simp [hh, length_generateComplement, length_goToUpper]
  · simp [hh, length_padOrTruncate]

lemma New_width_pos (s h : List Char) : 0 < (New s h).width := by
  have hlay := (New_layout s h).2.2
  rw [hlay]
  by_cases hh : h = []
  · simp only [hh, if_true]
    rw [length_goToUpper]
    unfold effectiveSeq
    by_cases ht : trimSpace s = []
    · simp [ht, defaultSequence]
    · have := length_pos_of_trimSpace_ne_nil s ht
      simp [ht]
      exact_mod_cast this
  · simp only [hh, if_false]
    have : 0 < h.length := List.length_pos.mpr hh
    exact_mod_cast this

/-! ### Claim theorems -/

/-- C3: the per-character complement mapping is an involution on
{A,T,G,C,5,3,-}, and maps N to N (a fixed point). -/
theorem complementChar_involution :
    (∀ c ∈ ['A', 'T', 'G', 'C', '5', '3', '-'],
      complementChar (complementChar c) = c) ∧
    complementChar 'N' = 'N' := by decide

/-- Witness for C3 at the concrete character `'A'`. -/
theorem complementChar_involution_witness :
    'A' ∈ ['A', 'T', 'G', 'C', '5', '3', '-'] ∧
    complementChar (complementChar 'A') = 'A' :=
  ⟨by decide, complementChar_involution.1 'A' (by decide)⟩

/-- C10: the width of every bar produced by `New` is strictly positive:
an empty or all-whitespace sequence is replaced by the non-empty default
before the width is taken from it, and a non-empty header has length at
least one. -/
theorem New_width_positive (s h : List Char) : 0 < (New s h).width :=
  New_width_pos s h

/-- C2: immediately after `New s h`, the lengths of `topStrand` and
`complement` both equal `width`; `width` is the header length when the
header is non-empty, else the length of the uppercased sequence with an
empty / all-whitespace input replaced by the 21-character default. -/
theorem New_strand_lengths (s h : List Char) :
    ((New s h).topStrand.length : Int) = (New s h).width ∧
    ((New s h).complement.length : Int) = (New s h).width ∧
    (New s h).width =
      (if h = [] then ((goToUpper (effectiveSeq s)).length : Int)
       else (h.length : Int)) ∧
    defaultSequence.length = 21 := by
  refine ⟨(New_layout s h).1, (New_layout s h).2.1, (New_layout s h).2.2, by decide⟩

/-- C9: `Start`, `Update`, `SetProgress` and `Finish` leave `width`,
`headerLine`, `topStrand` and `complement` unchanged; only the counters
`completed` and `total` are ever modified after construction. -/
theorem mutators_preserve_layout (pb : ProgressBar) (t c : Int) :
    ((Start pb t).1.width = pb.width ∧ (Start pb t).1.headerLine = pb.headerLine ∧
     (Start pb t).1.topStrand = pb.topStrand ∧ (Start pb t).1.complement = pb.complement) ∧
    ((Update pb).1.width = pb.width ∧ (Update pb).1.headerLine = pb.headerLine ∧
     (Update pb).1.topStrand = pb.topStrand ∧ (Update pb).1.complement = pb.complement) ∧
    ((SetProgress pb c).1.width = pb.width ∧ (SetProgress pb c).1.headerLine = pb.headerLine ∧
     (SetProgress pb c).1.topStrand = pb.topStrand ∧ (SetProgress pb c).1.complement = pb.complement) ∧
    ((Finish pb).1.width = pb.width ∧ (Finish pb).1.headerLine = pb.headerLine ∧
     (Finish pb).1.topStrand = pb.topStrand ∧ (Finish pb).1.complement = pb.complement) :=
  ⟨⟨rfl, rfl, rfl, rfl⟩, ⟨rfl, rfl, rfl, rfl⟩, ⟨rfl, rfl, rfl, rfl⟩, ⟨rfl, rfl, rfl, rfl⟩⟩

/-- C1 (failing input): after `New("ATCG","")`, `Start(4)`,
`SetProgress(-1)` — a state the spec explicitly allows — the fill
position is `-1`, outside `[0, width]` (the code clamps only from
above), and the render faults: the slice `topStrand[:-1]` and
`strings.Repeat(baseChar, -1)` panic in Go, modelled here by `none`. -/
theorem setProgress_negative_panics :
    fillPos (SetProgress (Start (New ['A', 'T', 'C', 'G'] []) 4).1 (-1)).1 = -1 ∧
    (SetProgress (Start (New ['A', 'T', 'C', 'G'] []) 4).1 (-1)).2 = none := by
  decide

/-- C5: whenever `total = 0`, `render` returns before dividing and emits
nothing, in both the canonical implementation and the root-level
variant. -/
theorem renderOutput_total_zero (pb qb : ProgressBar)
    (hp : pb.total = 0) (hq : qb.total = 0) :
    renderOutput pb = some [] ∧ Root.renderOutput qb = some [] := by
  constructor
  · unfold renderOutput; simp [hp]
  · unfold Root.renderOutput; simp [hq]

/-- Witness for C5 at a concrete freshly constructed bar (whose `total`
is still zero). -/
theorem renderOutput_total_zero_witness :
    (New ['A'] []).total = 0 ∧ (Root.New ['A'] []).total = 0 ∧
    renderOutput (New ['A'] []) = some [] ∧
    Root.renderOutput (Root.New ['A'] []) = some [] :=
  ⟨by decide, by decide,
   (renderOutput_total_zero (New ['A'] []) (Root.New ['A'] [])
     (by decide) (by decide)).1,
   (renderOutput_total_zero (New ['A'] []) (Root.New ['A'] [])
     (by decide) (by decide)).2⟩

lemma tdiv_fill_bounds (c t w : Int) (ht : 0 < t) (hc0 : 0 ≤ c) (hct : c ≤ t)
    (hw : 0 < w) :
    0 ≤ (c * w).tdiv t ∧ (c * w).tdiv t ≤ w ∧ ((c * w).tdiv t = w ↔ c = t) := by
  obtain ⟨m, rfl⟩ := Int.eq_ofNat_of_zero_le hc0
  obtain ⟨n, rfl⟩ := Int.eq_ofNat_of_zero_le (le_of_lt ht)
  obtain ⟨k, rfl⟩ := Int.eq_ofNat_of_zero_le (le_of_lt hw)
  have hn : 0 < n := by exact_mod_cast ht
  have hk : 0 < k := by exact_mod_cast hw
  have hmn : m ≤ n := by exact_mod_cast hct
  have hmul : ((m : Int) * (k : Int)) = ((m * k : Nat) : Int) := by push_cast; ring
  rw [hmul, ← Int.ofNat_tdiv]
  have hle : m * k / n ≤ k := by
    calc m * k / n ≤ n * k / n := Nat.div_le_div_right (Nat.mul_le_mul_right k hmn)
    _ = k := Nat.mul_div_cancel_left k hn
  refine ⟨by exact_mod_cast Nat.zero_le _, by exact_mod_cast hle, ?_⟩
  constructor
  · intro hEq
    have hEq' : m * k / n = k := by exact_mod_cast hEq
    by_contra hne
    have hmn' : m < n := lt_of_le_of_ne hmn (fun e => hne (by exact_mod_cast e))
    have hlt : m * k < k * n := by
      calc m * k < n * k := mul_lt_mul_of_pos_right hmn' hk
      _ = k * n := Nat.mul_comm n k
    have : m * k / n < k := (Nat.div_lt_iff_lt_mul hn).mpr hlt
    omega
  · intro hEq
    have hmn' : m = n := by exact_mod_cast hEq
    subst hmn'
    exact_mod_cast Nat.mul_div_cancel_left k hn

lemma fillPos_eq_raw_of_le {pb : ProgressBar}
    (h : Int.tdiv (pb.completed * pb.width) pb.total ≤ pb.width) :
    fillPos pb = Int.tdiv (pb.completed * pb.width) pb.total := by
  unfold fillPos
  exact if_neg (not_lt.mpr h)

/-- C4: for every bar constructed by `New`, every `total > 0` and every
`completed` in `[0, total]`, the fill position computed by `render`
satisfies `0 ≤ pos ≤ width`; `pos = width` exactly when
`completed = total`, and `pos = 0` when `completed = 0`. -/
theorem fillPos_in_range (s h : List Char) (c t : Int)
    (ht : 0 < t) (hc0 : 0 ≤ c) (hct : c ≤ t) :
    0 ≤ fillPos { New s h with completed := c, total := t } ∧
    fillPos { New s h with completed := c, total := t } ≤ (New s h).width ∧
    (fillPos { New s h with completed := c, total := t } = (New s h).width ↔ c = t) ∧
    (c = 0 → fillPos { New s h with completed := c, total := t } = 0) := by
  have hw := New_width_pos s h
  have key := tdiv_fill_bounds c t (New s h).width ht hc0 hct hw
  have hraw : fillPos { New s h with completed := c, total := t } =
      Int.tdiv (c * (New s h).width) t := fillPos_eq_raw_of_le key.2.1
  refine ⟨hraw ▸ key.1, hraw ▸ key.2.1, hraw ▸ key.2.2, ?_⟩
  intro hc
  subst hc
  rw [hraw]
  simp [Int.zero_tdiv]

/-- Witness for C4 at `New "ATCG" ""`, `total = 4`, `completed = 2`. -/
theorem fillPos_in_range_witness :
    (0 : Int) < 4 ∧ (0 : Int) ≤ 2 ∧ (2 : Int) ≤ 4 ∧
    (0 ≤ fillPos { New ['A', 'T', 'C', 'G'] [] with completed := 2, total := 4 } ∧
     fillPos { New ['A', 'T', 'C', 'G'] [] with completed := 2, total := 4 } ≤
       (New ['A', 'T', 'C', 'G'] []).width ∧
     (fillPos { New ['A', 'T', 'C', 'G'] [] with completed := 2, total := 4 } =
        (New ['A', 'T', 'C', 'G'] []).width ↔ (2 : Int) = 4) ∧
     ((2 : Int) = 0 →
       fillPos { New ['A', 'T', 'C', 'G'] [] with completed := 2, total := 4 } = 0)) :=
  ⟨by decide, by decide, by decide,
   fillPos_in_range ['A', 'T', 'C', 'G'] [] 2 4 (by decide) (by decide) (by decide)⟩

lemma fillPos_le_width (pb : ProgressBar) : fillPos pb ≤ pb.width := by
  by_cases h : Int.tdiv (pb.completed * pb.width) pb.total > pb.width
  · simp [fillPos, h]
  · simp only [fillPos, if_neg h]
    exact le_of_not_lt h

lemma renderLines_closed (pb : ProgressBar)
    (hw : 0 ≤ pb.width)
    (h1 : (pb.topStrand.length : Int) = pb.width)
    (h2 : (pb.complement.length : Int) = pb.width)
    (hpos : 0 ≤ fillPos pb) :
    renderLines pb = some (frameLines pb) := by
  have hle := fillPos_le_width pb
  have h1' : fillPos pb ≤ (pb.topStrand.length : Int) := by rw [h1]; exact hle
  have h2' : fillPos pb ≤ (pb.complement.length : Int) := by rw [h2]; exact hle
  unfold renderLines frameLines
  simp only [goRepeat, goSlice, hw, h1', h2', hpos, if_true, and_self, true_and,
    and_true, if_pos, Option.map_some, Option.some_bind]
  by_cases hlt : fillPos pb < pb.width
  · simp [hlt]
  · have heq : fillPos pb = pb.width := le_antisymm hle (le_of_not_lt hlt)
    simp [hlt, heq]

lemma renderLines_length (pb : ProgressBar) (lines : List (List Char))
    (h : renderLines pb = some lines) : lines.length = 5 := by
  unfold renderLines at h
  simp only [Option.bind_eq_some] at h
  obtain ⟨z, hz, a, ha, b, hb, p, hp, hfin⟩ := h
  cases hfin
  rfl

lemma Root_renderLines_length (pb : ProgressBar) (lines : List (List Char))
    (h : Root.renderLines pb = some lines) : lines.length = 5 := by
  unfold Root.renderLines at h
  simp only [Option.bind_eq_some] at h
  obtain ⟨z, hz, a, ha, b, hb, p, hp, hfin⟩ := h
  cases hfin
  rfl

lemma linePercentText_ne_nil (c t : Int) : linePercentText c t ≠ [] := by
  unfold linePercentText
  intro heq
  simp [List.append_eq_nil] at heq

lemma frameLines_ne_nil (pb : ProgressBar) :
    ∀ l ∈ frameLines pb, l ≠ [] := by
  intro l hl
  simp only [frameLines, List.mem_cons, List.not_mem_nil, or_false] at hl
  rcases hl with rfl | rfl | rfl | rfl | rfl
  · simp [label3]
  · simp [dashLead]
  · simp [dashLead]
  · simp [label5]
  · exact linePercentText_ne_nil _ _

lemma blank_line_not_mem (n : Nat) (printed : List (List Char))
    (hne : ∀ l ∈ printed, l ≠ []) :
    OutEvent.line [] ∉ List.replicate n OutEvent.cursorUp ++ printed.map OutEvent.line := by
  intro hmem
  rcases List.mem_append.mp hmem with hm | hm
  · exact OutEvent.noConfusion (List.eq_of_mem_replicate hm)
  · rcases List.mem_map.mp hm with ⟨l, hl, hel⟩
    injection hel with h
    exact hne l hl h

lemma renderOutput_closed (pb : ProgressBar)
    (ht : pb.total ≠ 0) (hw : 0 ≤ pb.width)
    (h1 : (pb.topStrand.length : Int) = pb.width)
    (h2 : (pb.complement.length : Int) = pb.width)
    (hpos : 0 ≤ fillPos pb) :
    renderOutput pb = some (
      List.replicate
        (if pb.completed > 0 then 5 + (if pb.headerLine ≠ [] then 1 else 0) else 0)
        OutEvent.cursorUp ++
      (if pb.headerLine ≠ [] then pb.headerLine :: frameLines pb
       else frameLines pb).map OutEvent.line) := by
  unfold renderOutput
  rw [if_neg ht, renderLines_closed pb hw h1 h2 hpos]

/-- C8: whenever a frame is rendered with `completed > 0` at the time of
the call, exactly `5 + 1` cursor-up escapes (header shown) or `5` (no
header; the root variant never shows one) are emitted before the frame's
lines; and a render triggered by `Start` emits no cursor-up sequences,
because `Start` resets `completed` to 0 first. -/
theorem render_cursor_up_discipline :
    (∀ (pb : ProgressBar) (evs : List OutEvent), pb.completed > 0 → pb.total ≠ 0 →
      renderOutput pb = some evs →
      ∃ printed : List (List Char),
        evs = List.replicate (5 + (if pb.headerLine ≠ [] then 1 else 0))
                OutEvent.cursorUp ++ printed.map OutEvent.line) ∧
    (∀ (qb : ProgressBar) (evs : List OutEvent), qb.completed > 0 → qb.total ≠ 0 →
      Root.renderOutput qb = some evs →
      ∃ printed : List (List Char),
        evs = List.replicate 5 OutEvent.cursorUp ++ printed.map OutEvent.line) ∧
    (∀ (pb : ProgressBar) (t : Int) (evs : List OutEvent),
      (Start pb t).2 = some evs → OutEvent.cursorUp ∉ evs) := by
  refine ⟨?_, ?_, ?_⟩
  · intro pb evs hc ht h
    unfold renderOutput at h
    rw [if_neg ht] at h
    cases hr : renderLines pb with
    | none => rw [hr] at h; exact Option.noConfusion h
    | some lines =>
      rw [hr] at h
      refine ⟨if pb.headerLine ≠ [] then pb.headerLine :: lines else lines, ?_⟩
      injection h with he
      rw [← he, if_pos hc]
  · intro qb evs hc ht h
    unfold Root.renderOutput at h
    rw [if_neg ht] at h
    cases hr : Root.renderLines qb with
    | none => rw [hr] at h; exact Option.noConfusion h
    | some lines =>
      rw [hr] at h
      refine ⟨lines, ?_⟩
      injection h with he
      rw [← he, if_pos hc]
  · intro pb t evs h
    simp only [Start] at h
    unfold renderOutput at h
    split at h
    · injection h with he
      rw [← he]
      simp
    · split at h
      · exact Option.noConfusion h
      · injection h with he
        rw [← he]
        intro hmem
        have hzero : ¬((0 : Int) > 0) := by norm_num
        rw [if_neg hzero, List.replicate_zero, List.nil_append] at hmem
        rcases List.mem_map.mp hmem with ⟨l, hl, hel⟩
        exact OutEvent.noConfusion hel

/-- Witness for C8: a bar with header `"HDR"` at `completed = 1`,
`total = 3` renders with exactly six cursor-up escapes before its
lines. -/
theorem render_cursor_up_discipline_witness :
    pbW.completed > 0 ∧ pbW.total ≠ 0 ∧
    ∃ evs, renderOutput pbW = some evs ∧
      ∃ printed : List (List Char),
        evs = List.replicate (5 + (if pbW.headerLine ≠ [] then 1 else 0))
                OutEvent.cursorUp ++ printed.map OutEvent.line := by
  have hsome : (renderOutput pbW).isSome := by decide
  exact ⟨by decide, by decide, (renderOutput pbW).get hsome,
         (Option.some_get hsome).symm,
         render_cursor_up_discipline.1 pbW _ (by decide) (by decide)
           (Option.some_get hsome).symm⟩

/-- C7 (counterexample): in the root-level `polybar.go` variant — one of
the two implementations the claim covers — `New("ATCG", "")` leaves
`headerLine` equal to the top strand, not the empty string. -/
theorem Root_New_empty_header_headerLine :
    (Root.New ['A', 'T', 'C', 'G'] []).headerLine = ['A', 'T', 'C', 'G'] ∧
    ¬(Root.New ['A', 'T', 'C', 'G'] []).headerLine = [] := by decide

/-- C7 (amended): with an empty header, the canonical `New` leaves
`headerLine` empty while the root variant sets it to the uppercased
(default-substituted) sequence; in both implementations `render` draws
no header row, emitting exactly five printed lines per frame. -/
theorem New_empty_header_five_lines :
    (∀ s : List Char, (New s []).headerLine = []) ∧
    (∀ s : List Char, (Root.New s []).headerLine = goToUpper (effectiveSeq s)) ∧
    (∀ (pb : ProgressBar) (evs : List OutEvent), pb.headerLine = [] → pb.total ≠ 0 →
      renderOutput pb = some evs → evs.countP isLine = 5) ∧
    (∀ (qb : ProgressBar) (evs : List OutEvent), qb.total ≠ 0 →
      Root.renderOutput qb = some evs → evs.countP isLine = 5) := by
  have h0 : ∀ n : Nat, List.countP isLine (List.replicate n OutEvent.cursorUp) = 0 :=
    fun n => List.countP_eq_zero.mpr
      (fun a ha => by rw [List.eq_of_mem_replicate ha]; simp [isLine])
  have hmap : ∀ lines : List (List Char),
      List.countP isLine (lines.map OutEvent.line) = lines.length := by
    intro lines
    have h : List.countP isLine (lines.map OutEvent.line) =
        (lines.map OutEvent.line).length :=
      List.countP_eq_length.mpr
        (fun a ha => by
          rcases List.mem_map.mp ha with ⟨l, -, rfl⟩
          simp [isLine])
    rw [h, List.length_map]
  refine ⟨?_, ?_, ?_, ?_⟩
  · intro s; simp [New]
  · intro s; simp [Root.New, effectiveSeq]
  · intro pb evs hh ht h
    unfold renderOutput at h
    rw [if_neg ht] at h
    cases hr : renderLines pb with
    | none => rw [hr] at h; exact Option.noConfusion h
    | some lines =>
      rw [hr] at h
      injection h with he
      have hne : (if pb.headerLine ≠ [] then pb.headerLine :: lines else lines) = lines :=
        if_neg (by simpa using hh)
      rw [← he, hne, List.countP_append, h0, hmap, renderLines_length pb lines hr]
  · intro qb evs ht h
    unfold Root.renderOutput at h
    rw [if_neg ht] at h
    cases hr : Root.renderLines qb with
    | none => rw [hr] at h; exact Option.noConfusion h
    | some lines =>
      rw [hr] at h
      injection h with he
      rw [← he, List.countP_append, h0, hmap, Root_renderLines_length qb lines hr]

/-- Witness for C7: the concrete header-less bar renders a frame with
exactly five printed lines. -/
theorem New_empty_header_five_lines_witness :
    pbNoH.headerLine = [] ∧ pbNoH.total ≠ 0 ∧
    ∃ evs, renderOutput pbNoH = some evs ∧ evs.countP isLine = 5 := by
  have hsome : (renderOutput pbNoH).isSome := by decide
  exact ⟨by decide, by decide, (renderOutput pbNoH).get hsome,
         (Option.some_get hsome).symm,
         New_empty_header_five_lines.2.2.1 pbNoH _ (by decide) (by decide)
           (Option.some_get hsome).symm⟩

/-- C6: `Finish` sets `completed = total` regardless of the prior value,
renders in that state, and then emits exactly one trailing blank line —
the only blank line of its output, at the very end. -/
theorem Finish_forces_completion (s h : List Char) (c t : Int) (ht : t ≠ 0) :
    (Finish { New s h with completed := c, total := t }).1.completed =
      (Finish { New s h with completed := c, total := t }).1.total ∧
    (Finish { New s h with completed := c, total := t }).2 =
      (renderOutput (Finish { New s h with completed := c, total := t }).1).map
        (fun evs => evs ++ [OutEvent.line []]) ∧
    ∃ evs, (Finish { New s h with completed := c, total := t }).2 =
      some (evs ++ [OutEvent.line []]) ∧ OutEvent.line [] ∉ evs := by
  refine ⟨rfl, rfl, ?_⟩
  have hwpos := New_width_pos s h
  set pbF : ProgressBar := { New s h with completed := t, total := t } with hpbF
  have hw : 0 ≤ pbF.width := le_of_lt hwpos
  have h1 : (pbF.topStrand.length : Int) = pbF.width := (New_layout s h).1
  have h2 : (pbF.complement.length : Int) = pbF.width := (New_layout s h).2.1
  have hfp : fillPos pbF = pbF.width := by
    have hdiv : Int.tdiv (pbF.completed * pbF.width) pbF.total = pbF.width :=
      Int.mul_tdiv_cancel_left _ ht
    show (if Int.tdiv (pbF.completed * pbF.width) pbF.total > pbF.width then pbF.width
          else Int.tdiv (pbF.completed * pbF.width) pbF.total) = pbF.width
    rw [hdiv]
    simp
  have hpos : 0 ≤ fillPos pbF := by rw [hfp]; exact hw
  have hclosed := renderOutput_closed pbF ht hw h1 h2 hpos
  refine ⟨List.replicate
      (if pbF.completed > 0 then 5 + (if pbF.headerLine ≠ [] then 1 else 0) else 0)
      OutEvent.cursorUp ++
    (if pbF.headerLine ≠ [] then pbF.headerLine :: frameLines pbF
     else frameLines pbF).map OutEvent.line, ?_, ?_⟩
  · show (renderOutput pbF).map (fun evs => evs ++ [OutEvent.line []]) = _
    rw [hclosed]
    rfl
  · apply blank_line_not_mem
    intro l hl
    by_cases hhl : pbF.headerLine = []
    · rw [if_neg (by simpa using hhl)] at hl
      exact frameLines_ne_nil pbF l hl
    · rw [if_pos hhl] at hl
      rcases List.mem_cons.mp hl with rfl | hl
      · exact hhl
      · exact frameLines_ne_nil pbF l hl

/-- Witness for C6 at `New "ATCG" ""`, `completed = 1`, `total = 4`. -/
theorem Finish_forces_completion_witness :
    (4 : Int) ≠ 0 ∧
    ((Finish { New ['A', 'T', 'C', 'G'] [] with completed := 1, total := 4 }).1.completed =
      (Finish { New ['A', 'T', 'C', 'G'] [] with completed := 1, total := 4 }).1.total ∧
    (Finish { New ['A', 'T', 'C', 'G'] [] with completed := 1, total := 4 }).2 =
      (renderOutput (Finish { New ['A', 'T', 'C', 'G'] [] with completed := 1, total := 4 }).1).map
        (fun evs => evs ++ [OutEvent.line []]) ∧
    ∃ evs, (Finish { New ['A', 'T', 'C', 'G'] [] with completed := 1, total := 4 }).2 =
      some (evs ++ [OutEvent.line []]) ∧ OutEvent.line [] ∉ evs) :=
  ⟨by decide, Finish_forces_completion ['A', 'T', 'C', 'G'] [] 1 4 (by decide)⟩

end Polybar

